import Mathlib

/-!
Shallow embedding of `conda_build/cran.py`, the CRAN-to-conda recipe
converter. The pure fragments of the Python source (string manipulation,
the dependency regular expression `VERSION_DEPENDENCY_REGEX`, the PACKAGES
index parsing pipeline and the dependency resolver inside `main`) are
translated into executable Lean definitions; network and file I/O are out
of scope. Python strings are modelled by `String`, Python `None` by
`Option`, and `sys.exit` / uncaught exceptions by `Except String`.
All recursive definitions are fuel-structured or structural so that every
concrete run reduces definitionally.
-/

namespace CranBuild

/-- Python whitespace, as used by `str.strip`, `str.lstrip` and the regex
class `\s` (ASCII range; the PACKAGES index is ASCII). -/
def pySpace (c : Char) : Bool :=
  c = ' ' || c = '\t' || c = '\n' || c = '\r' || c = '\x0b' || c = '\x0c'

/-- Python `str.lstrip()`. -/
def pyLstrip (s : String) : String := String.mk (s.data.dropWhile pySpace)

/-- Python `str.strip()`. -/
def pyStrip (s : String) : String :=
  String.mk (((s.data.dropWhile pySpace).reverse.dropWhile pySpace).reverse)

/-- Python `str.lower()` on one ASCII character. -/
def pyLowerChar (c : Char) : Char :=
  if 'A' ≤ c && c ≤ 'Z' then Char.ofNat (c.toNat + 32) else c

/-- Python `str.lower()` (ASCII). -/
def pyLower (s : String) : String := String.mk (s.data.map pyLowerChar)

/-- Python `str.startswith`. -/
def pyStartsWith (s pat : String) : Bool := pat.data.isPrefixOf s.data

/-- Python `str.endswith`. -/
def pyEndsWith (s pat : String) : Bool := pat.data.isSuffixOf s.data

/-- Python `str.split(sep)` for a non-empty separator, on character lists.
The first argument is fuel, instantiated with the input length: every
recursive call removes at least one character, so the fuel never runs out
and the definition stays structural. -/
def splitFuel (sep : List Char) : Nat → List Char → List (List Char)
  | 0, l => [l]
  | _ + 1, [] => [[]]
  | fuel + 1, c :: rest =>
    if sep.isPrefixOf (c :: rest) then
      [] :: splitFuel sep fuel (List.drop sep.length (c :: rest))
    else
      let r := splitFuel sep fuel rest
      (c :: r.headD []) :: r.tail

/-- Python `str.split(sep)` for a non-empty separator (Python raises
`ValueError` on an empty separator; that case never occurs here). -/
def pySplit (s sep : String) : List String :=
  if sep.data.isEmpty then [s]
  else (splitFuel sep.data s.data.length s.data).map String.mk

/-- Python `str.splitlines()` restricted to the `\n` terminator, the only
line terminator occurring in the fetched PACKAGES text. -/
def pySplitlines (s : String) : List String :=
  if s = "" then []
  else if pyEndsWith s "\n" then (pySplit s "\n").dropLast
  else pySplit s "\n"

/-- Python single-character `str.replace(c, d)`: substitute every
occurrence of the character `c` by `d`. -/
def pyReplaceChar (s : String) (c d : Char) : String :=
  String.mk (s.data.map fun x => if x = c then d else x)

/-- Python `dict` assignment `d[k] = v` on an association list: overwrite
in place keeping the original insertion position, else append. -/
def dictInsert {α : Type} (d : List (String × α)) (k : String) (v : α) :
    List (String × α) :=
  if d.any (fun p => p.1 == k) then
    d.map (fun p => if p.1 == k then (k, v) else p)
  else d ++ [(k, v)]

/-- Python `dict` lookup `d[k]` for keys known to be present, with an
unreachable default. -/
def lookupD {α : Type} (d : List (String × α)) (k : String) (dflt : α) : α :=
  match d.find? (fun p => p.1 == k) with
  | some p => p.2
  | none => dflt

/-- CPython `set(...)` collapsed back to a list: one copy of each distinct
string. CPython iterates a set in hash order, which is implementation
defined; this embedding keeps first occurrences, and every claim that is
sensitive to the enumeration order is settled for each relevant order
explicitly. Fuel-structured (the filtered tail is never longer). -/
def dedupFirstFuel : Nat → List String → List String
  | 0, _ => []
  | _ + 1, [] => []
  | fuel + 1, x :: xs => x :: dedupFirstFuel fuel (xs.filter (fun y => !(y == x)))

/-- CPython `set(...)` enumeration, first-occurrence order. -/
def dedupFirst (l : List String) : List String := dedupFirstFuel l.length l

/-! ## VERSION_DEPENDENCY_REGEX (src/conda_build/cran.py lines 185-190)

The pattern is
`^\s*(?P<name>[a-zA-Z0-9.+\-]{1,})`
`(\s*\(\s*(?P<relop>[>=<]+)\s*(?P<version>[0-9a-zA-Z:\-+~.]+)\s*\))?`
`(\s*\[(?P<archs>[\s!\w\-]+)\])?\s*$`.
All quantifiers are greedy, and the character classes of adjacent pieces
are disjoint (no name, relop, version or arch character is whitespace, an
opening bracket or a closing bracket), so greedy maximal munch coincides
with the backtracking semantics of `re.match` and the matcher below is
deterministic. -/

/-- Result of `VERSION_DEPENDENCY_REGEX.match(s)`: the four named groups;
`none` models an unmatched optional group (Python `None`). -/
structure DepMatch where
  name : String
  relop : Option String
  version : Option String
  archs : Option String
deriving DecidableEq, Repr

/-- Regex class `[a-zA-Z0-9.+\-]` of the `name` group. -/
def isNameChar (c : Char) : Bool :=
  ('a' ≤ c && c ≤ 'z') || ('A' ≤ c && c ≤ 'Z') || ('0' ≤ c && c ≤ '9') ||
  c = '.' || c = '+' || c = '-'

/-- Regex class `[>=<]` of the `relop` group. -/
def isRelopChar (c : Char) : Bool := c = '>' || c = '=' || c = '<'

/-- Regex class `[0-9a-zA-Z:\-+~.]` of the `version` group. -/
def isVersionChar (c : Char) : Bool :=
  ('0' ≤ c && c ≤ '9') || ('a' ≤ c && c ≤ 'z') || ('A' ≤ c && c ≤ 'Z') ||
  c = ':' || c = '-' || c = '+' || c = '~' || c = '.'

/-- Regex class `[\s!\w\-]` of the `archs` group (`\w` over ASCII). -/
def isArchChar (c : Char) : Bool :=
  pySpace c || c = '!' || ('a' ≤ c && c ≤ 'z') || ('A' ≤ c && c ≤ 'Z') ||
  ('0' ≤ c && c ≤ '9') || c = '_' || c = '-'

/-- The optional group
`(\s*\(\s*(?P<relop>[>=<]+)\s*(?P<version>[0-9a-zA-Z:\-+~.]+)\s*\))?`:
on success returns the two captures and the rest of the input. -/
def matchParenGroup (cs : List Char) : Option (String × String × List Char) :=
  match cs.dropWhile pySpace with
  | '(' :: cs2 =>
    let cs3 := cs2.dropWhile pySpace
    let relop := cs3.takeWhile isRelopChar
    if relop.isEmpty then none
    else
      let cs4 := (cs3.dropWhile isRelopChar).dropWhile pySpace
      let ver := cs4.takeWhile isVersionChar
      if ver.isEmpty then none
      else
        match (cs4.dropWhile isVersionChar).dropWhile pySpace with
        | ')' :: cs5 => some (String.mk relop, String.mk ver, cs5)
        | _ => none
  | _ => none

/-- The optional group `(\s*\[(?P<archs>[\s!\w\-]+)\])?`. -/
def matchArchGroup (cs : List Char) : Option (String × List Char) :=
  match cs.dropWhile pySpace with
  | '[' :: cs2 =>
    let a := cs2.takeWhile isArchChar
    if a.isEmpty then none
    else
      match cs2.dropWhile isArchChar with
      | ']' :: cs3 => some (String.mk a, cs3)
      | _ => none
  | _ => none

/-- `VERSION_DEPENDENCY_REGEX.match(s)`. -/
def versionDependencyMatch (s : String) : Option DepMatch :=
  let cs := s.data.dropWhile pySpace
  let nm := cs.takeWhile isNameChar
  if nm.isEmpty then none
  else
    let rest := cs.dropWhile isNameChar
    let pg := matchParenGroup rest
    let rest2 := match pg with
      | some (_, _, rs) => rs
      | none => rest
    let ag := matchArchGroup rest2
    let rest3 := match ag with
      | some (_, rs) => rs
      | none => rest2
    if (rest3.dropWhile pySpace).isEmpty then
      some { name := String.mk nm,
             relop := pg.map (fun t => t.1),
             version := pg.map (fun t => t.2.1),
             archs := ag.map (fun t => t.1) }
    else none

/-! ## Per-token body of the dependency loop in `main` (lines 335-351) -/

/-- Outcome of one iteration of `for s in set(chain(depends, imports,
links))`: a successful parse carries the values bound after
`relop = match.group('relop') or ''` and
`version = match.group('version') or ''`; the three error constructors
model `sys.exit` on an unparsable token, a failing
`assert not relop or version`, and `sys.exit` on an architecture
qualifier (`if archs:`). -/
inductive TokenResult where
  | parsed (name relop version : String)
  | parseExit
  | assertFailed
  | archsExit
deriving DecidableEq, Repr

/-- One iteration of the dependency-token loop of `main`. `Option.getD ""`
is exactly Python `x or ''` on a value that is `None` or a string, and the
`if archs:` truthiness test collapses `None` and `''` the same way. -/
def processToken (s : String) : TokenResult :=
  match versionDependencyMatch s with
  | none => .parseExit
  | some m =>
    let relop := m.relop.getD ""
    let version := m.version.getD ""
    if relop != "" && version == "" then .assertFailed
    else if m.archs.getD "" != "" then .archsExit
    else .parsed m.name relop version

/-- The dependency loop of `main`: iterate over the token enumeration,
aborting the run at the first bad token, otherwise
`dep_dict[name] = '{relop}{version}'.format(...)`, that is `relop ++
version`. -/
def buildDepDict (d : List (String × String)) :
    List String → Except String (List (String × String))
  | [] => .ok d
  | t :: ts =>
    match processToken t with
    | .parsed name relop version =>
        buildDepDict (dictInsert d name (relop ++ version)) ts
    | .parseExit => .error ("Could not parse version from dependency: " ++ t)
    | .assertFailed => .error ("AssertionError: " ++ t)
    | .archsExit => .error ("Do not know how to handle archs from dependency: " ++ t)

/-- A dependency source field is comma-split, stripped, and empty entries
are dropped: `[s.strip() for s in field.split(',') if s.strip()]`
(lines 325-330). -/
def splitDepField (field : String) : List String :=
  ((pySplit field ",").map pyStrip).filter (fun t => t != "")

/-- `set(chain(depends, imports, links))` (line 335); see `dedupFirst`
about the enumeration order. -/
def tokensFromSources (depends imports links : String) : List String :=
  dedupFirst (splitDepField depends ++ splitDepField imports ++ splitDepField links)

/-! ## R base packages and the dependency resolver (lines 149-164, 353-364) -/

/-- `R_BASE_PACKAGE_NAMES` (lines 149-164). -/
def R_BASE_PACKAGE_NAMES : List String :=
  ["base", "tools", "utils", "grDevices", "graphics", "stats", "datasets",
   "methods", "grid", "splines", "stats4", "tcltk", "compiler", "parallel"]

/-- `R_RECOMMENDED_PACKAGE_NAMES` (lines 166-182; declared by the source
but unused by its logic). -/
def R_RECOMMENDED_PACKAGE_NAMES : List String :=
  ["MASS", "lattice", "Matrix", "nlme", "survival", "boot", "cluster",
   "codetools", "foreign", "KernSmooth", "rpart", "class", "nnet", "spatial",
   "mgcv"]

/-- Code-point lexicographic order on character lists: the order Python
uses to compare strings. -/
def charListLe : List Char → List Char → Bool
  | [], _ => true
  | _ :: _, [] => false
  | a :: as, b :: bs =>
    if a < b then true else if b < a then false else charListLe as bs

/-- Python string comparison `a <= b`. -/
def strLeb (a b : String) : Bool := charListLe a.data b.data

/-- Insert into an already sorted list, before the first element that is
not strictly smaller (stability of Python `sorted`). -/
def orderedInsertStr (x : String) : List String → List String
  | [] => [x]
  | y :: ys => if strLeb x y then x :: y :: ys else y :: orderedInsertStr x ys

/-- Python `sorted` on a list of strings (stable insertion sort under the
code-point lexicographic order). -/
def sortStrings (l : List String) : List String := l.foldr orderedInsertStr []

/-- `sorted(dep_dict)`: the keys of the dict in ascending order. -/
def sortedKeys (d : List (String × String)) : List String :=
  sortStrings (d.map Prod.fst)

/-- The emitted line of a non-base, non-R dependency:
`'    - {name} {version}'.format(name='r-' + name.lower(), version=dep_dict[name])`. -/
def depLine (dep_dict : List (String × String)) (name : String) : String :=
  "    - r-" ++ pyLower name ++ " " ++ lookupD dep_dict name ""

/-- Body of the dependency emission loop of `main` (lines 353-364): skip R
base packages, `deps.insert(0, '    - r {version}')` for the name `R`, and
`deps.append('    - {name} {version}')` with `'r-' + name.lower()`
otherwise. -/
def depStep (dep_dict : List (String × String)) (deps : List String)
    (name : String) : List String :=
  if R_BASE_PACKAGE_NAMES.contains name then deps
  else if name == "R" then
    ("    - r " ++ lookupD dep_dict name "") :: deps
  else
    deps ++ [depLine dep_dict name]

/-- Names the resolver keeps for the renamed, sorted segment: not an R base
package and not the distinguished name `R`. -/
def depKeep (name : String) : Bool :=
  !(R_BASE_PACKAGE_NAMES.contains name) && !(name == "R")

/-- The dependency emission loop of `main` (lines 353-364):
`for name in sorted(dep_dict): ...`. -/
def resolveDeps (dep_dict : List (String × String)) : List String :=
  (sortedKeys dep_dict).foldl (depStep dep_dict) []

/-! ## remove_package_line_continuations (lines 204-258) -/

/-- Python list index arithmetic: a negative index counts from the end. -/
def pyIdx (n : Nat) (i : Int) : Nat := if i < 0 then (i + n).toNat else i.toNat

/-- Python list read `l[i]` on a list of string-or-`None` cells. Reads out
of range would raise `IndexError` in Python and never occur on the
reachable states; they return `none` here. -/
def pyGetO (l : List (Option String)) (i : Int) : Option String :=
  l.getD (pyIdx l.length i) none

/-- Python list write `l[i] = v`. -/
def pySetO (l : List (Option String)) (i : Int) (v : Option String) :
    List (Option String) :=
  l.set (pyIdx l.length i) v

/-- Loop state of `remove_package_line_continuations`: the mutated `chunk`
(consumed lines become Python `None`) and the four locals of the function. -/
structure ContState where
  chunk : List (Option String)
  continued_ix : Option Int
  continued_line : Option String
  had_continuation : Bool
  accumulating : Bool
deriving DecidableEq, Repr

/-- `continuation = ' ' * 8` (line 225). -/
def continuationMarker : String := "        "

/-- Body of `for (i, line) in enumerate(chunk)` (lines 231-250). The
iteration reads `chunk[i]` from the current list state, because the Python
loop iterates the very list object it mutates (the wrap-around write
`chunk[-1]` can land on a position not yet visited). In the Python source
`continued_line` on the flush path is whatever string was accumulated;
reading a `None` cell there is unreachable (`None` cells live at indices
already consumed, which are never re-read as a continuation parent). -/
def contStep (s : ContState) (i : Nat) : ContState :=
  let line := (pyGetO s.chunk (i : Int)).getD ""
  if pyStartsWith line continuationMarker then
    let line := " " ++ pyLstrip line
    if s.accumulating then
      { s with
        continued_line := some (s.continued_line.getD "" ++ line),
        chunk := pySetO s.chunk (i : Int) none }
    else
      { chunk := pySetO s.chunk (i : Int) none,
        continued_ix := some ((i : Int) - 1),
        continued_line := some ((pyGetO s.chunk ((i : Int) - 1)).getD "" ++ line),
        had_continuation := true,
        accumulating := true }
  else
    if s.accumulating then
      { s with
        chunk := pySetO s.chunk (s.continued_ix.getD 0) s.continued_line,
        accumulating := false,
        continued_line := none,
        continued_ix := none }
    else s

/-- The `for` loop: run `contStep` at indices `i, i+1, ...` for `fuel`
steps. -/
def contLoop : ContState → Nat → Nat → ContState
  | s, _, 0 => s
  | s, i, fuel + 1 => contLoop (contStep s i) (i + 1) fuel

/-- Python truthiness filter `[c for c in chunk if c]` on string-or-`None`
cells: both `None` and `''` are falsy and dropped. -/
def truthyFilter (l : List (Option String)) : List String :=
  l.filterMap (fun c =>
    match c with
    | none => none
    | some str => if str == "" then none else some str)

/-- `remove_package_line_continuations(chunk)` (lines 204-258). After the
loop, `chunk = [c for c in chunk if c]` keeps only truthy cells (dropping
both `None` and `''`) when a continuation was seen, and `chunk.append('')`
adds the end-of-record sentinel unconditionally. When no continuation was
seen, no cell is `None` and the list is returned as is (plus sentinel). -/
def remove_package_line_continuations (chunk : List String) : List String :=
  let s := contLoop ⟨chunk.map some, none, none, false, false⟩ 0 chunk.length
  let cleaned :=
    if s.had_continuation then truthyFilter s.chunk
    else s.chunk.map (fun c => c.getD "")
  cleaned ++ [""]

/-! ## dict_from_cran_lines (lines 192-202) -/

/-- A parsed per-package record: the field dict plus
`d['orig_lines'] = lines`. -/
structure CranRecord where
  fields : List (String × String)
  orig_lines : List String
deriving DecidableEq, Repr

/-- Field loop of `dict_from_cran_lines`: empty lines are skipped
(`if not line: continue`), and `(k, v) = line.split(': ')` is a
two-element unpacking that raises `ValueError` unless the split yields
exactly two parts. The unknown-key warning is a print and is not
modelled. -/
def cranFieldsAux (d : List (String × String)) :
    List String → Except String (List (String × String))
  | [] => .ok d
  | line :: rest =>
    if line == "" then cranFieldsAux d rest
    else
      match pySplit line ": " with
      | [k, v] => cranFieldsAux (dictInsert d k v) rest
      | _ => .error ("ValueError: cannot unpack line: " ++ line)

/-- `dict_from_cran_lines(lines)`. -/
def dict_from_cran_lines (lines : List String) : Except String CranRecord :=
  match cranFieldsAux [] lines with
  | .ok d => .ok ⟨d, lines⟩
  | .error e => .error e

/-! ## Index splitting and the metadata map (main, lines 270-273) -/

/-- `[remove_package_line_continuations(i.splitlines()) for i in
PACKAGES.split('\n\n')]` (line 270). -/
def package_list (PACKAGES : String) : List (List String) :=
  (pySplit PACKAGES "\n\n").map
    (fun i => remove_package_line_continuations (pySplitlines i))

/-- The dict comprehension
`{d['Package'].lower(): d for d in map(dict_from_cran_lines, package_list)}`
(lines 272-273); a block whose field dict has no `Package` key raises
`KeyError`. -/
def cranMetadataAux (acc : List (String × CranRecord)) :
    List (List String) → Except String (List (String × CranRecord))
  | [] => .ok acc
  | block :: rest =>
    match dict_from_cran_lines block with
    | .error e => .error e
    | .ok r =>
      match r.fields.find? (fun p => p.1 == "Package") with
      | none => .error "KeyError: Package"
      | some p => cranMetadataAux (dictInsert acc (pyLower p.2) r) rest

/-- `cran_metadata` as built by `main` from the raw PACKAGES text. -/
def cran_metadata (PACKAGES : String) :
    Except String (List (String × CranRecord)) :=
  cranMetadataAux [] (package_list PACKAGES)

/-! ## Version and source fields of the recipe (main, lines 302-306) -/

/-- The version-derived entries of the per-package dict `d`. -/
structure VersionFields where
  cran_version : String
  conda_version : String
  filename : String
  cranurl : String
deriving DecidableEq, Repr

/-- Lines 302-306 of `main`:
`d['cran_version'] = cran_package['Version']`,
`d['conda_version'] = d['cran_version'].replace('-', '_')`,
`d['filename'] = '{cran_packagename}_{cran_version}.tar.bz2'.format(**d)`,
`d['cranurl'] = args.cran_url + d['filename']`. -/
def buildVersionFields (cran_url cran_packagename Version : String) :
    VersionFields :=
  let cran_version := Version
  let conda_version := pyReplaceChar cran_version '-' '_'
  let fname := cran_packagename ++ "_" ++ cran_version ++ ".tar.bz2"
  ⟨cran_version, conda_version, fname, cran_url ++ fname⟩

/-! ## Control-flow skeleton of main (lines 275-278 and 366-376) -/

/-- Observable steps of `main`: building the recipe fields of a package in
the first loop, and writing its recipe files in the second loop. -/
inductive MainEvent where
  | build (package : String)
  | write (package : String)
deriving DecidableEq, Repr

/-- Order in which `while args.packages: package = args.packages.pop()`
consumes the requested names: Python `list.pop()` removes the LAST
element. Fuel-structured over the list length. -/
def popOrderFuel : Nat → List String → List String
  | 0, _ => []
  | fuel + 1, ps =>
    if ps.isEmpty then []
    else ps.getLastD "" :: popOrderFuel fuel ps.dropLast

/-- The order in which `main` processes the requested packages. -/
def processingOrder (ps : List String) : List String :=
  popOrderFuel ps.length ps

/-- Control-flow skeleton of `main`, assuming every requested package is
present in the index: the first loop builds each popped package's recipe
fields (`package_dicts.setdefault`, lines 275-364), the second loop then
writes the recipes while iterating `package_dicts` in dict insertion
order, which is the popped order with duplicates collapsed to their first
occurrence (lines 366-376). -/
def mainEvents (ps : List String) : List MainEvent :=
  (processingOrder ps).map MainEvent.build ++
    (dedupFirst (processingOrder ps)).map MainEvent.write

/-! ## Helper lemmas about strings and lists -/

theorem mk_ne_empty (cs : List Char) (h : cs ≠ []) : String.mk cs ≠ "" := by
  intro hc
  exact h (by simpa using congrArg String.data hc)

theorem str_append_ne_empty_right (a b : String) (h : b ≠ "") : a ++ b ≠ "" := by
  intro hc
  apply h
  have hd : a.data ++ b.data = [] := by simpa using congrArg String.data hc
  have hb : b.data = [] := (List.append_eq_nil.mp hd).2
  cases b with
  | mk bs => simp at hb; subst hb; rfl

theorem space_append_ne_empty (b : String) : " " ++ b ≠ "" := by
  intro hc
  have hd : (' ' :: b.data : List Char) = [] := by simpa using congrArg String.data hc
  simp at hd

theorem set_cons_length {α : Type} (x : α) (l : List α) (v : α) :
    (x :: l).set l.length v = (x :: l).dropLast ++ [v] := by
  induction l generalizing x with
  | nil => rfl
  | cons y t ih => simpa using ih y

theorem getD_cons_length {α : Type} (x : α) (l : List α) (d : α) :
    (x :: l).getD l.length d = (x :: l).getLastD d := by
  induction l generalizing x with
  | nil => rfl
  | cons y t ih =>
    have h1 : (x :: y :: t).getD (y :: t).length d = (y :: t).getD t.length d := by
      simp [List.getD]
    rw [h1, ih y]
    simp [List.getLastD_eq_getLast?, List.getLast?_cons]

theorem getLastD_cons_cons {α : Type} (x y : α) (t : List α) (d : α) :
    (x :: y :: t).getLastD d = (y :: t).getLastD d := by
  simp [List.getLastD_eq_getLast?, List.getLast?_cons]

theorem map_some_getLastD (x : String) (l : List String) :
    ((x :: l).map some).getLastD none = some ((x :: l).getLastD "") := by
  simp [List.getLastD_eq_getLast?, List.getLast?_map, List.getLast?_cons]

/-! ## Helper lemmas about Python indexing and the continuation loop -/

theorem pyIdx_natCast (n j : Nat) : pyIdx n (j : Int) = j := by
  simp [pyIdx]

theorem pyIdx_neg_one (n : Nat) : pyIdx n (-1) = n - 1 := by
  simp only [pyIdx, if_pos (by omega : (-1 : Int) < 0)]
  omega

theorem pyGetO_natCast (l : List (Option String)) (j : Nat) :
    pyGetO l (j : Int) = (l.get? j).getD none := by
  simp [pyGetO, pyIdx_natCast, List.getD_eq_getD_get?]

theorem pyGetO_neg_one_cons (x : String) (l : List String) :
    pyGetO ((x :: l).map some) (-1) = some ((x :: l).getLastD "") := by
  have hl : (l.map some).length = l.length := List.length_map l some
  have h1 : ((x :: l).map some).length = l.length + 1 := by simp
  rw [pyGetO, pyIdx_neg_one, h1, Nat.add_sub_cancel, ← hl]
  rw [show ((x :: l).map some) = some x :: l.map some from rfl, getD_cons_length]
  exact map_some_getLastD x l

theorem contStep_inert (s : ContState) (i : Nat)
    (hacc : s.accumulating = false)
    (hline : pyStartsWith ((pyGetO s.chunk (i : Int)).getD "")
        continuationMarker = false) :
    contStep s i = s := by
  simp [contStep, hline, hacc]

theorem contLoop_inert (fuel : Nat) :
    ∀ (s : ContState) (i : Nat), s.accumulating = false →
      (∀ o ∈ s.chunk, pyStartsWith (o.getD "") continuationMarker = false) →
      contLoop s i fuel = s := by
  induction fuel with
  | zero => intro s i _ _; rfl
  | succ k ih =>
    intro s i hacc hch
    have hline : pyStartsWith ((pyGetO s.chunk (i : Int)).getD "")
        continuationMarker = false := by
      rw [pyGetO_natCast]
      cases h : s.chunk.get? i with
      | none => simp only [h, Option.getD_none]; decide
      | some o => simpa [h] using hch o (List.get?_mem h)
    calc contLoop s i (k + 1) = contLoop (contStep s i) (i + 1) k := rfl
      _ = contLoop s (i + 1) k := by rw [contStep_inert s i hacc hline]
      _ = s := ih s (i + 1) hacc hch

/-- On a block with no continuation line, the loop of
`remove_package_line_continuations` is the identity and the function only
appends the sentinel. -/
theorem rplc_no_cont (chunk : List String)
    (h : ∀ l ∈ chunk, pyStartsWith l continuationMarker = false) :
    remove_package_line_continuations chunk = chunk ++ [""] := by
  have hloop : contLoop ⟨chunk.map some, none, none, false, false⟩ 0 chunk.length =
      ⟨chunk.map some, none, none, false, false⟩ := by
    apply contLoop_inert
    · rfl
    · intro o ho
      obtain ⟨l, hl, rfl⟩ := List.mem_map.mp ho
      simpa using h l hl
  simp only [remove_package_line_continuations, hloop, List.map_map]
  have hcomp : ((fun c : Option String => c.getD "") ∘ some) = id := by
    funext c; rfl
  rw [hcomp, List.map_id]
  simp

/-! ## Helper lemmas about the truthiness filter -/

theorem truthyFilter_append (l₁ l₂ : List (Option String)) :
    truthyFilter (l₁ ++ l₂) = truthyFilter l₁ ++ truthyFilter l₂ := by
  simp [truthyFilter, List.filterMap_append]

theorem truthyFilter_cons_none (l : List (Option String)) :
    truthyFilter (none :: l) = truthyFilter l := by
  simp [truthyFilter]

theorem truthyFilter_map_some (l : List String)
    (h : ∀ x ∈ l, x ≠ "") : truthyFilter (l.map some) = l := by
  induction l with
  | nil => rfl
  | cons x t ih =>
    have hx : (x == "") = false := by
      simpa using h x (List.mem_cons_self x t)
    simp only [List.map_cons, truthyFilter, List.filterMap_cons]
    rw [show ((if x == "" then none else some x) : Option String) = some x by
      rw [hx]; rfl]
    have := ih (fun y hy => h y (List.mem_cons_of_mem x hy))
    simpa [truthyFilter] using this

/-- C3. Continuation normalization is NOT idempotent: on the already
normalized single-field block `["Package: A3"]` a second application does
not return the first application's output (each pass appends one more
empty sentinel line). -/
theorem claim3_normalizer_not_idempotent :
    remove_package_line_continuations
        (remove_package_line_continuations ["Package: A3"]) ≠
      remove_package_line_continuations ["Package: A3"] := by
  decide

/-- C3 (amended). On a block with no continuation line, each application of
the normalizer appends exactly one empty sentinel line: the second
application returns the first application's output plus one further `""`,
so the normalizer is idempotent only up to the trailing sentinel. -/
theorem claim3_amended_sentinel_growth (chunk : List String)
    (h : ∀ l ∈ chunk, pyStartsWith l continuationMarker = false) :
    remove_package_line_continuations (remove_package_line_continuations chunk) =
      remove_package_line_continuations chunk ++ [""] := by
  have h1 := rplc_no_cont chunk h
  have h2 : ∀ l ∈ chunk ++ [""], pyStartsWith l continuationMarker = false := by
    intro l hl
    rcases List.mem_append.mp hl with hl | hl
    · exact h l hl
    · simp only [List.mem_singleton] at hl
      subst hl
      decide
  rw [h1, rplc_no_cont _ h2]

/-- C3 witness: the amended statement evaluated on the single-field block. -/
theorem claim3_amended_sentinel_growth_witness :
    remove_package_line_continuations
        (remove_package_line_continuations ["Package: A3"]) =
      remove_package_line_continuations ["Package: A3"] ++ [""] :=
  claim3_amended_sentinel_growth ["Package: A3"] (by decide)

/-! ## Step lemmas for the two continuation branches -/

theorem contStep_first_cont (s : ContState) (i : Nat)
    (hacc : s.accumulating = false)
    (hline : pyStartsWith ((pyGetO s.chunk (i : Int)).getD "")
        continuationMarker = true) :
    contStep s i =
      { chunk := pySetO s.chunk (i : Int) none,
        continued_ix := some ((i : Int) - 1),
        continued_line := some ((pyGetO s.chunk ((i : Int) - 1)).getD "" ++
          (" " ++ pyLstrip ((pyGetO s.chunk (i : Int)).getD ""))),
        had_continuation := true,
        accumulating := true } := by
  simp [contStep, hline, hacc]

theorem contStep_flush (s : ContState) (i : Nat)
    (hacc : s.accumulating = true)
    (hline : pyStartsWith ((pyGetO s.chunk (i : Int)).getD "")
        continuationMarker = false) :
    contStep s i =
      { s with
        chunk := pySetO s.chunk (s.continued_ix.getD 0) s.continued_line,
        accumulating := false,
        continued_line := none,
        continued_ix := none } := by
  simp [contStep, hline, hacc]

theorem pySetO_neg_one_cons (x : Option String) (l : List (Option String))
    (v : Option String) :
    pySetO (x :: l) (-1) v = (x :: l).dropLast ++ [v] := by
  rw [pySetO, pyIdx_neg_one]
  have h1 : (x :: l).length - 1 = l.length := by simp
  rw [h1]
  exact set_cons_length x l v

theorem dropLast_cons_map_some (x : Option String) (r : String)
    (rs : List String) :
    (x :: (r :: rs).map some).dropLast = x :: ((r :: rs).dropLast).map some := by
  simp [List.map_dropLast]

theorem truthyFilter_singleton_some (s : String) (h : s ≠ "") :
    truthyFilter [some s] = [s] := by
  simp [truthyFilter, h]

/-- C10. When the very first line of a block is itself a continuation line,
the normalizer folds its stripped content into the LAST line of the block:
the Python index `continued_ix = i - 1 = -1` wraps around to the end of the
list, so the flush write lands on the final line, not on any preceding one.
Stated for a block whose remaining lines are ordinary (non-empty,
non-continuation) field lines and whose patched last line does not itself
become a continuation line. -/
theorem claim10_wraparound_append (c0 r : String) (rs : List String)
    (h0 : pyStartsWith c0 continuationMarker = true)
    (hr : ∀ l ∈ r :: rs, l ≠ "" ∧ pyStartsWith l continuationMarker = false)
    (hmod : pyStartsWith ((r :: rs).getLastD "" ++ (" " ++ pyLstrip c0))
        continuationMarker = false) :
    remove_package_line_continuations (c0 :: r :: rs) =
      (r :: rs).dropLast ++ [(r :: rs).getLastD "" ++ (" " ++ pyLstrip c0), ""] := by
  have hrcont : pyStartsWith r continuationMarker = false :=
    (hr r (List.mem_cons_self r rs)).2
  have hget0 : pyGetO ((c0 :: r :: rs).map some) ((0 : Nat) : Int) = some c0 := by
    rw [pyGetO_natCast]; rfl
  have h01 : (((0 : Nat) : Int) - 1) = (-1 : Int) := by decide
  have hgetm1 : pyGetO ((c0 :: r :: rs).map some) (((0 : Nat) : Int) - 1) =
      some ((r :: rs).getLastD "") := by
    rw [h01, pyGetO_neg_one_cons, getLastD_cons_cons]
  have hstep0 : contStep ⟨(c0 :: r :: rs).map some, none, none, false, false⟩ 0 =
      ⟨none :: (r :: rs).map some, some (((0 : Nat) : Int) - 1),
        some ((r :: rs).getLastD "" ++ (" " ++ pyLstrip c0)), true, true⟩ := by
    have hset : pySetO ((c0 :: r :: rs).map some) ((0 : Nat) : Int) none =
        none :: (r :: rs).map some := by
      rw [pySetO, pyIdx_natCast]; rfl
    rw [contStep_first_cont _ _ rfl (by rw [hget0]; simpa using h0)]
    rw [hset, hgetm1, hget0]
    simp only [Option.getD_some]
  have hget1 : pyGetO (none :: (r :: rs).map some) ((1 : Nat) : Int) = some r := by
    rw [pyGetO_natCast]; rfl
  have hstep1 : contStep ⟨none :: (r :: rs).map some, some (((0 : Nat) : Int) - 1),
        some ((r :: rs).getLastD "" ++ (" " ++ pyLstrip c0)), true, true⟩ 1 =
      ⟨none :: (((r :: rs).dropLast).map some ++
          [some ((r :: rs).getLastD "" ++ (" " ++ pyLstrip c0))]),
        none, none, true, false⟩ := by
    have hset : pySetO (none :: (r :: rs).map some) (((0 : Nat) : Int) - 1)
        (some ((r :: rs).getLastD "" ++ (" " ++ pyLstrip c0))) =
        none :: (((r :: rs).dropLast).map some ++
          [some ((r :: rs).getLastD "" ++ (" " ++ pyLstrip c0))]) := by
      rw [h01, pySetO_neg_one_cons, dropLast_cons_map_some]
      rfl
    rw [contStep_flush _ _ rfl (by rw [hget1]; simpa using hrcont)]
    simp only [Option.getD_some]
    rw [hset]
  have hcells : ∀ o ∈ (⟨none :: (((r :: rs).dropLast).map some ++
          [some ((r :: rs).getLastD "" ++ (" " ++ pyLstrip c0))]),
        none, none, true, false⟩ : ContState).chunk,
      pyStartsWith (o.getD "") continuationMarker = false := by
    intro o ho
    simp only [List.mem_cons, List.mem_append, List.mem_map,
      List.mem_singleton] at ho
    rcases ho with rfl | ⟨l, hl, rfl⟩ | rfl | hfalse
    · decide
    · exact (hr l (List.dropLast_subset _ hl)).2
    · simpa using hmod
    · exact absurd hfalse (List.not_mem_nil o)
  have hloop : contLoop ⟨(c0 :: r :: rs).map some, none, none, false, false⟩ 0
        (c0 :: r :: rs).length =
      ⟨none :: (((r :: rs).dropLast).map some ++
          [some ((r :: rs).getLastD "" ++ (" " ++ pyLstrip c0))]),
        none, none, true, false⟩ := by
    have hlen : (c0 :: r :: rs).length = rs.length + 2 := by simp
    rw [hlen]
    calc contLoop ⟨(c0 :: r :: rs).map some, none, none, false, false⟩ 0
          (rs.length + 2)
        = contLoop (contStep ⟨(c0 :: r :: rs).map some, none, none, false, false⟩ 0)
            1 (rs.length + 1) := rfl
      _ = contLoop ⟨none :: (r :: rs).map some, some (((0 : Nat) : Int) - 1),
            some ((r :: rs).getLastD "" ++ (" " ++ pyLstrip c0)), true, true⟩
            1 (rs.length + 1) := by rw [hstep0]
      _ = contLoop (contStep ⟨none :: (r :: rs).map some,
            some (((0 : Nat) : Int) - 1),
            some ((r :: rs).getLastD "" ++ (" " ++ pyLstrip c0)), true, true⟩ 1)
            2 rs.length := rfl
      _ = contLoop ⟨none :: (((r :: rs).dropLast).map some ++
            [some ((r :: rs).getLastD "" ++ (" " ++ pyLstrip c0))]),
            none, none, true, false⟩ 2 rs.length := by rw [hstep1]
      _ = _ := contLoop_inert rs.length _ 2 rfl hcells
  have hne : ∀ x ∈ (r :: rs).dropLast, x ≠ "" :=
    fun x hx => (hr x (List.dropLast_subset _ hx)).1
  have hmodne : (r :: rs).getLastD "" ++ (" " ++ pyLstrip c0) ≠ "" :=
    str_append_ne_empty_right _ _ (space_append_ne_empty _)
  simp only [remove_package_line_continuations, hloop, if_pos,
    truthyFilter_cons_none, truthyFilter_append,
    truthyFilter_map_some _ hne, truthyFilter_singleton_some _ hmodne]
  simp

/-- C10 witness: a two-line block whose first line is a continuation; the
content folds into the final (and only other) line. -/
theorem claim10_wraparound_append_witness :
    remove_package_line_continuations ["        foo", "Bar: baz"] =
      ([("Bar: baz" : String)].dropLast ++
        [[("Bar: baz" : String)].getLastD "" ++ (" " ++ pyLstrip "        foo"), ""]) :=
  claim10_wraparound_append "        foo" "Bar: baz" [] (by decide)
    (by decide) (by decide)

/-! ## Inversion lemmas for the dependency regex -/

theorem matchParenGroup_ne_empty {cs : List Char} {r v : String}
    {rest : List Char} (h : matchParenGroup cs = some (r, v, rest)) :
    r ≠ "" ∧ v ≠ "" := by
  unfold matchParenGroup at h
  dsimp only [] at h
  split at h
  next cs2 heq1 =>
    split at h
    next hrel => exact absurd h (by simp)
    next hrel =>
      split at h
      next hver => exact absurd h (by simp)
      next hver =>
        split at h
        next cs5 heq2 =>
          simp only [Option.some.injEq, Prod.mk.injEq] at h
          obtain ⟨h1, h2, -⟩ := h
          constructor
          · rw [← h1]
            exact mk_ne_empty _ (by simpa using hrel)
          · rw [← h2]
            exact mk_ne_empty _ (by simpa using hver)
        next heq2 => exact absurd h (by simp)
  next heq1 => exact absurd h (by simp)

theorem matchArchGroup_ne_empty {cs : List Char} {a : String}
    {rest : List Char} (h : matchArchGroup cs = some (a, rest)) : a ≠ "" := by
  unfold matchArchGroup at h
  dsimp only [] at h
  split at h
  next cs2 heq1 =>
    split at h
    next harch => exact absurd h (by simp)
    next harch =>
      split at h
      next cs3 heq2 =>
        simp only [Option.some.injEq, Prod.mk.injEq] at h
        obtain ⟨h1, -⟩ := h
        rw [← h1]
        exact mk_ne_empty _ (by simpa using harch)
      next heq2 => exact absurd h (by simp)
  next heq1 => exact absurd h (by simp)

/-- Inversion of a successful `VERSION_DEPENDENCY_REGEX` match: the relop
and version captures are both absent or both present (they sit inside the
same optional group) and, when present, non-empty; the archs capture is
absent or non-empty. -/
theorem versionDependencyMatch_inv {s : String} {m : DepMatch}
    (h : versionDependencyMatch s = some m) :
    ((m.relop = none ∧ m.version = none) ∨
      (∃ r v, m.relop = some r ∧ m.version = some v ∧ r ≠ "" ∧ v ≠ "")) ∧
    (m.archs = none ∨ ∃ a, m.archs = some a ∧ a ≠ "") := by
  unfold versionDependencyMatch at h
  dsimp only [] at h
  split at h
  next hnm => exact absurd h (by simp)
  next hnm =>
    cases hpg : matchParenGroup
        (List.dropWhile isNameChar (List.dropWhile pySpace s.data)) with
    | none =>
      rw [hpg] at h
      dsimp only [] at h
      cases hag : matchArchGroup
          (List.dropWhile isNameChar (List.dropWhile pySpace s.data)) with
      | none =>
        rw [hag] at h
        dsimp only [] at h
        split at h
        next hend =>
          simp only [Option.some.injEq] at h
          subst h
          exact ⟨Or.inl ⟨rfl, rfl⟩, Or.inl rfl⟩
        next hend => exact absurd h (by simp)
      | some t2 =>
        obtain ⟨a, rest2⟩ := t2
        rw [hag] at h
        dsimp only [] at h
        split at h
        next hend =>
          simp only [Option.some.injEq] at h
          subst h
          exact ⟨Or.inl ⟨rfl, rfl⟩, Or.inr ⟨a, rfl, matchArchGroup_ne_empty hag⟩⟩
        next hend => exact absurd h (by simp)
    | some t =>
      obtain ⟨r, v, rest1⟩ := t
      obtain ⟨hr, hv⟩ := matchParenGroup_ne_empty hpg
      rw [hpg] at h
      dsimp only [] at h
      cases hag : matchArchGroup rest1 with
      | none =>
        rw [hag] at h
        dsimp only [] at h
        split at h
        next hend =>
          simp only [Option.some.injEq] at h
          subst h
          exact ⟨Or.inr ⟨r, v, rfl, rfl, hr, hv⟩, Or.inl rfl⟩
        next hend => exact absurd h (by simp)
      | some t2 =>
        obtain ⟨a, rest2⟩ := t2
        rw [hag] at h
        dsimp only [] at h
        split at h
        next hend =>
          simp only [Option.some.injEq] at h
          subst h
          exact ⟨Or.inr ⟨r, v, rfl, rfl, hr, hv⟩,
            Or.inr ⟨a, rfl, matchArchGroup_ne_empty hag⟩⟩
        next hend => exact absurd h (by simp)

theorem versionDependencyMatch_groups {s : String} {m : DepMatch}
    (h : versionDependencyMatch s = some m) :
    (m.relop = none ∧ m.version = none) ∨
      (∃ r v, m.relop = some r ∧ m.version = some v ∧ r ≠ "" ∧ v ≠ "") :=
  (versionDependencyMatch_inv h).1

theorem versionDependencyMatch_archs {s : String} {m : DepMatch}
    (h : versionDependencyMatch s = some m) :
    m.archs = none ∨ ∃ a, m.archs = some a ∧ a ≠ "" :=
  (versionDependencyMatch_inv h).2

/-- The Boolean test of `assert not relop or version` is false on every
regex-matched token. -/
theorem relop_version_bool {s : String} {m : DepMatch}
    (h : versionDependencyMatch s = some m) :
    (m.relop.getD "" != "" && m.version.getD "" == "") = false := by
  rcases versionDependencyMatch_groups h with ⟨h1, h2⟩ | ⟨r, v, h1, h2, _, hv⟩
  · rw [h1]
    simp
  · rw [h2]
    simp [hv]

/-- C9. On every token accepted by `VERSION_DEPENDENCY_REGEX`, presence of
a relational operator implies presence of a version value (they are
captured by one and the same optional parenthesized group), so the
internal `assert not relop or version` in `main` can never fail. -/
theorem claim9_assert_never_fails :
    (∀ (s : String) (m : DepMatch), versionDependencyMatch s = some m →
      (m.relop.getD "" = "" ∨ m.version.getD "" ≠ "")) ∧
    ∀ s : String, processToken s ≠ TokenResult.assertFailed := by
  constructor
  · intro s m h
    rcases versionDependencyMatch_groups h with ⟨h1, h2⟩ | ⟨r, v, h1, h2, _, hv⟩
    · left
      rw [h1]
      rfl
    · right
      rw [h2]
      simpa using hv
  · intro s
    unfold processToken
    cases h : versionDependencyMatch s with
    | none => simp
    | some m =>
      have hb := relop_version_bool h
      simp only [hb, Bool.false_eq_true, if_false]
      split <;> simp

/-- C9 witness: the invariant instantiated on the matched token
`R (>= 2.15.0)`. -/
theorem claim9_assert_never_fails_witness :
    ((some ">=" : Option String).getD "" = "" ∨
      (some "2.15.0" : Option String).getD "" ≠ "") ∧
    processToken "R (>= 2.15.0)" ≠ TokenResult.assertFailed :=
  ⟨claim9_assert_never_fails.1 "R (>= 2.15.0)"
      ⟨"R", some ">=", some "2.15.0", none⟩ (by decide),
    claim9_assert_never_fails.2 "R (>= 2.15.0)"⟩

/-- C2. Dependency-token parsing on the documented grammar: a bare name
parses with empty operator and version, a parenthesized constraint yields
the operator and version captures, an architecture-qualified token ends
the run via `sys.exit` (never silently accepted), and a token the regex
rejects ends the run via the parse `sys.exit`. -/
theorem claim2_dependency_parsing :
    processToken "pbapply" = TokenResult.parsed "pbapply" "" "" ∧
    processToken "R (>= 2.15.0)" = TokenResult.parsed "R" ">=" "2.15.0" ∧
    processToken "xtable [!i386]" = TokenResult.archsExit ∧
    (∀ s : String, versionDependencyMatch s = none →
      processToken s = TokenResult.parseExit) ∧
    (∀ (s : String) (m : DepMatch), versionDependencyMatch s = some m →
      m.archs ≠ none → processToken s = TokenResult.archsExit) := by
  refine ⟨by decide, by decide, by decide, ?_, ?_⟩
  · intro s h
    simp [processToken, h]
  · intro s m h ha
    obtain ⟨a, ha2, hane⟩ := (versionDependencyMatch_archs h).resolve_left ha
    have hb := relop_version_bool h
    simp [processToken, h, hb, ha2, hane]

/-- C2 witness: the general exit clauses instantiated on the
arch-qualified token and on an unparsable token. -/
theorem claim2_dependency_parsing_witness :
    processToken "foo bar" = TokenResult.parseExit ∧
    processToken "xtable [!i386]" = TokenResult.archsExit :=
  ⟨claim2_dependency_parsing.2.2.2.1 "foo bar" (by decide),
    claim2_dependency_parsing.2.2.2.2 "xtable [!i386]"
      ⟨"xtable", none, none, some "!i386"⟩ (by decide) (by simp)⟩

/-! ## Order lemmas for the Python string sort -/

theorem charListLe_total (a : List Char) : ∀ b : List Char,
    charListLe a b = true ∨ charListLe b a = true := by
  induction a with
  | nil => intro b; left; rfl
  | cons x xs ih =>
    intro b
    cases b with
    | nil => right; rfl
    | cons y ys =>
      rcases lt_trichotomy x y with hxy | hxy | hxy
      · left
        simp [charListLe, hxy]
      · subst hxy
        rcases ih ys with h | h
        · left
          simp [charListLe, lt_irrefl, h]
        · right
          simp [charListLe, lt_irrefl, h]
      · right
        simp [charListLe, hxy]

theorem charListLe_trans : ∀ (a b c : List Char), charListLe a b = true →
    charListLe b c = true → charListLe a c = true := by
  intro a
  induction a with
  | nil => intro b c _ _; rfl
  | cons x xs ih =>
    intro b c hab hbc
    cases b with
    | nil => simp [charListLe] at hab
    | cons y ys =>
      cases c with
      | nil => simp [charListLe] at hbc
      | cons z zs =>
        simp only [charListLe] at hab hbc ⊢
        rcases lt_trichotomy x y with h1 | h1 | h1
        · rcases lt_trichotomy y z with h2 | h2 | h2
          · simp [lt_trans h1 h2]
          · subst h2
            simp [h1]
          · rw [if_neg (asymm h2), if_pos h2] at hbc
            exact absurd hbc (by simp)
        · subst h1
          rw [if_neg (lt_irrefl x), if_neg (lt_irrefl x)] at hab
          rcases lt_trichotomy x z with h2 | h2 | h2
          · simp [h2]
          · subst h2
            rw [if_neg (lt_irrefl x), if_neg (lt_irrefl x)] at hbc
            rw [if_neg (lt_irrefl x), if_neg (lt_irrefl x)]
            exact ih ys zs hab hbc
          · rw [if_neg (asymm h2), if_pos h2] at hbc
            exact absurd hbc (by simp)
        · rw [if_neg (asymm h1), if_pos h1] at hab
          exact absurd hab (by simp)

theorem strLeb_trans {a b c : String} (h1 : strLeb a b = true)
    (h2 : strLeb b c = true) : strLeb a c = true :=
  charListLe_trans _ _ _ h1 h2

theorem strLeb_total (a b : String) : strLeb a b = true ∨ strLeb b a = true :=
  charListLe_total _ _

theorem orderedInsertStr_perm (x : String) (l : List String) :
    List.Perm (orderedInsertStr x l) (x :: l) := by
  induction l with
  | nil => exact List.Perm.refl _
  | cons y ys ih =>
    by_cases h : strLeb x y = true
    · rw [orderedInsertStr, if_pos h]
    · rw [orderedInsertStr, if_neg h]
      exact (List.Perm.cons y ih).trans (List.Perm.swap x y ys)

theorem sortStrings_perm (l : List String) : List.Perm (sortStrings l) l := by
  induction l with
  | nil => exact List.Perm.refl _
  | cons x xs ih =>
    exact (orderedInsertStr_perm x (sortStrings xs)).trans (List.Perm.cons x ih)

theorem orderedInsertStr_pairwise (x : String) (l : List String)
    (h : l.Pairwise (fun a b => strLeb a b = true)) :
    (orderedInsertStr x l).Pairwise (fun a b => strLeb a b = true) := by
  induction l with
  | nil => simp [orderedInsertStr]
  | cons y ys ih =>
    rcases List.pairwise_cons.mp h with ⟨hy, hys⟩
    by_cases hxy : strLeb x y = true
    · rw [orderedInsertStr, if_pos hxy]
      refine List.pairwise_cons.mpr ⟨?_, h⟩
      intro b hb
      rcases List.mem_cons.mp hb with rfl | hb
      · exact hxy
      · exact strLeb_trans hxy (hy b hb)
    · rw [orderedInsertStr, if_neg hxy]
      refine List.pairwise_cons.mpr ⟨?_, ih hys⟩
      intro b hb
      have hb' := (orderedInsertStr_perm x ys).mem_iff.mp hb
      rcases List.mem_cons.mp hb' with rfl | hb'
      · rcases strLeb_total b y with hby | hyb
        · exact absurd hby hxy
        · exact hyb
      · exact hy b hb'

theorem sortStrings_pairwise (l : List String) :
    (sortStrings l).Pairwise (fun a b => strLeb a b = true) := by
  induction l with
  | nil => simp [sortStrings]
  | cons x xs ih => exact orderedInsertStr_pairwise x _ ih

/-! ## The resolver fold -/

theorem foldl_depStep_no_R (dd : List (String × String)) :
    ∀ (l : List String) (acc : List String), "R" ∉ l →
      l.foldl (depStep dd) acc = acc ++ (l.filter depKeep).map (depLine dd) := by
  intro l
  induction l with
  | nil => intro acc _; simp
  | cons n l ih =>
    intro acc hR
    have hnR : n ≠ "R" := fun hh => hR (hh ▸ List.mem_cons_self n l)
    have hR' : "R" ∉ l := fun hh => hR (List.mem_cons_of_mem n hh)
    cases hb : R_BASE_PACKAGE_NAMES.contains n with
    | true =>
      have hk : depKeep n = false := by rw [depKeep, hb]; rfl
      have hstep : depStep dd acc n = acc := by rw [depStep, if_pos hb]
      rw [List.foldl_cons, hstep, ih acc hR']
      simp [List.filter_cons, hk]
    | false =>
      have hk : depKeep n = true := by rw [depKeep, hb]; simp [hnR]
      have hstep : depStep dd acc n = acc ++ [depLine dd n] := by
        rw [depStep, if_neg (by rw [hb]; decide), if_neg (by simp [hnR])]
      rw [List.foldl_cons, hstep, ih _ hR']
      simp [List.filter_cons, hk, List.append_assoc]

/-- C1. The resolver drops every dependency whose name is in
`R_BASE_PACKAGE_NAMES`, emits the name `R` first and un-prefixed, and
emits every remaining dependency as `r-` plus the lower-cased name, in
ascending code-point order of the original (pre-rename) name; in
particular the token set `{"R (>= 2.15.0)", "methods", "xtable"}` resolves
to the line for `r >=2.15.0` followed by the line for `r-xtable` with an
empty constraint, with `methods` omitted. -/
theorem claim1_resolver_order :
    (∀ dd : List (String × String), (dd.map Prod.fst).Nodup →
      resolveDeps dd =
        (if "R" ∈ dd.map Prod.fst then ["    - r " ++ lookupD dd "R" ""] else []) ++
          ((sortedKeys dd).filter depKeep).map (depLine dd) ∧
        ((sortedKeys dd).filter depKeep).Pairwise (fun a b => strLeb a b = true)) ∧
    buildDepDict [] ["R (>= 2.15.0)", "methods", "xtable"] =
      Except.ok [("R", ">=2.15.0"), ("methods", ""), ("xtable", "")] ∧
    resolveDeps [("R", ">=2.15.0"), ("methods", ""), ("xtable", "")] =
      ["    - r >=2.15.0", "    - r-xtable "] := by
  refine ⟨?_, rfl, rfl⟩
  intro dd hnodup
  have hperm : List.Perm (sortedKeys dd) (dd.map Prod.fst) := sortStrings_perm _
  have hnodup' : (sortedKeys dd).Nodup := hperm.nodup_iff.mpr hnodup
  constructor
  · unfold resolveDeps
    by_cases hRmem : "R" ∈ dd.map Prod.fst
    · have hRks : "R" ∈ sortedKeys dd := hperm.mem_iff.mpr hRmem
      obtain ⟨s, t, hst⟩ := List.append_of_mem hRks
      have h1 : "R" ∉ s := by
        rw [hst, List.nodup_append] at hnodup'
        intro hs
        exact hnodup'.2.2 hs (List.mem_cons_self _ _)
      have h2 : "R" ∉ t := by
        rw [hst, List.nodup_append] at hnodup'
        exact (List.nodup_cons.mp hnodup'.2.1).1
      have hRbase : R_BASE_PACKAGE_NAMES.contains "R" = false := by decide
      have hstep : ∀ acc, depStep dd acc "R" =
          ("    - r " ++ lookupD dd "R" "") :: acc := by
        intro acc
        rw [depStep, if_neg (by rw [hRbase]; decide)]
        simp
      have hkR : depKeep "R" = false := by decide
      rw [hst, List.foldl_append, foldl_depStep_no_R dd s [] h1,
        List.foldl_cons, hstep, foldl_depStep_no_R dd t _ h2, if_pos hRmem]
      simp [List.filter_append, List.filter_cons, hkR, List.append_assoc]
    · have hRks : "R" ∉ sortedKeys dd := fun hh => hRmem (hperm.mem_iff.mp hh)
      rw [foldl_depStep_no_R dd _ [] hRks, if_neg hRmem]
  · exact (sortStrings_pairwise _).filter _

/-- C1 witness: the characterization instantiated on the dependency dict of
the concrete example. -/
theorem claim1_resolver_order_witness :
    resolveDeps [("R", ">=2.15.0"), ("methods", ""), ("xtable", "")] =
      (if "R" ∈ [("R", ">=2.15.0"), ("methods", ""), ("xtable", "")].map Prod.fst
        then ["    - r " ++
          lookupD [("R", ">=2.15.0"), ("methods", ""), ("xtable", "")] "R" ""]
        else []) ++
        ((sortedKeys [("R", ">=2.15.0"), ("methods", ""), ("xtable", "")]).filter
            depKeep).map
          (depLine [("R", ">=2.15.0"), ("methods", ""), ("xtable", "")]) ∧
      ((sortedKeys [("R", ">=2.15.0"), ("methods", ""), ("xtable", "")]).filter
          depKeep).Pairwise (fun a b => strLeb a b = true) :=
  claim1_resolver_order.1 [("R", ">=2.15.0"), ("methods", ""), ("xtable", "")]
    (by decide)

/-! ## The main-loop order and the dict-insert key discipline -/

theorem popOrderFuel_eq_reverse : ∀ (fuel : Nat) (ps : List String),
    ps.length ≤ fuel → popOrderFuel fuel ps = ps.reverse := by
  intro fuel
  induction fuel with
  | zero =>
    intro ps h
    have hnil : ps = [] := List.eq_nil_of_length_eq_zero (Nat.le_zero.mp h)
    subst hnil
    rfl
  | succ k ih =>
    intro ps h
    rcases ps.eq_nil_or_concat with rfl | ⟨L, z, rfl⟩
    · rfl
    · rw [popOrderFuel]
      simp only [List.concat_eq_append] at h ⊢
      rw [if_neg (by simp), List.getLastD_concat, List.dropLast_concat]
      rw [ih L (by simpa using Nat.le_of_succ_le_succ (by simpa using h))]
      simp

theorem processingOrder_eq_reverse (ps : List String) :
    processingOrder ps = ps.reverse :=
  popOrderFuel_eq_reverse ps.length ps (Nat.le_refl _)

theorem dictInsert_keys {α : Type} (d : List (String × α)) (k : String) (v : α) :
    (dictInsert d k v).map Prod.fst =
      if d.any (fun p => p.1 == k) then d.map Prod.fst
      else d.map Prod.fst ++ [k] := by
  unfold dictInsert
  split
  · rw [List.map_map]
    congr 1
    funext p
    by_cases h : (p.1 == k) = true
    · simp only [Function.comp_apply, if_pos h]
      exact ((beq_iff_eq).mp h).symm
    · simp only [Function.comp_apply, if_neg h]
  · simp

theorem any_eq_false_not_mem {α : Type} (d : List (String × α)) (k : String)
    (h : d.any (fun p => p.1 == k) = false) : k ∉ d.map Prod.fst := by
  intro hk
  obtain ⟨p, hp, hpk⟩ := List.mem_map.mp hk
  have := List.any_eq_false.mp h p hp
  rw [hpk] at this
  simp at this

theorem any_eq_true_mem {α : Type} (d : List (String × α)) (k : String)
    (h : d.any (fun p => p.1 == k) = true) : k ∈ d.map Prod.fst := by
  obtain ⟨p, hp, hpk⟩ := List.any_eq_true.mp h
  exact List.mem_map.mpr ⟨p, hp, (beq_iff_eq).mp hpk⟩

/-! ## Claims C4 to C8 -/

/-- C4 counterexample. A line whose value contains the delimiter `': '` is
NOT parsed at the first occurrence: `line.split(': ')` splits at every
occurrence and the two-element unpacking `(k, v) = ...` raises
`ValueError`, aborting the run instead of producing the record. -/
theorem claim4_colon_space_value_fails :
    dict_from_cran_lines ["Title: Models: a tool"] =
      Except.error "ValueError: cannot unpack line: Title: Models: a tool" ∧
    dict_from_cran_lines ["Title: Models: a tool"] ≠
      Except.ok ⟨[("Title", "Models: a tool")], ["Title: Models: a tool"]⟩ := by
  constructor
  · rfl
  · intro hc
    have h1 : dict_from_cran_lines ["Title: Models: a tool"] =
        Except.error "ValueError: cannot unpack line: Title: Models: a tool" := rfl
    rw [h1] at hc
    exact Except.noConfusion hc

/-- C4 (amended). The record parser splits each non-empty line at EVERY
occurrence of `': '` and succeeds only when exactly two parts result,
storing them as key and value; a value may contain `':'` not followed by a
space, while a value containing `': '` makes the unpacking fail and aborts
the run. -/
theorem claim4_amended_exact_split :
    (∀ (d : List (String × String)) (line k v : String) (lines : List String),
      line ≠ "" → pySplit line ": " = [k, v] →
      cranFieldsAux d (line :: lines) = cranFieldsAux (dictInsert d k v) lines) ∧
    dict_from_cran_lines ["Title: a:b"] =
      Except.ok ⟨[("Title", "a:b")], ["Title: a:b"]⟩ ∧
    dict_from_cran_lines ["Package: A3", "Version: 0.9.2"] =
      Except.ok ⟨[("Package", "A3"), ("Version", "0.9.2")],
        ["Package: A3", "Version: 0.9.2"]⟩ := by
  refine ⟨?_, rfl, rfl⟩
  intro d line k v lines hne hsplit
  have hbeq : (line == "") = false := by simpa using hne
  rw [cranFieldsAux, hbeq]
  simp only [Bool.false_eq_true, if_false, hsplit]

/-- C4 witness: the successful-split clause instantiated on a plain
`Key: Value` line. -/
theorem claim4_amended_exact_split_witness :
    cranFieldsAux [] ["Package: A3"] =
      cranFieldsAux (dictInsert [] "Package" "A3") [] :=
  claim4_amended_exact_split.1 [] "Package: A3" "Package" "A3" []
    (by decide) rfl

/-- C5 counterexample. The same name in two dependency sources with
conflicting constraints does NOT fail the run: both possible set
enumeration orders succeed, and the later-processed token's constraint is
the one retained. -/
theorem claim5_conflict_does_not_fail :
    tokensFromSources "foo (>= 1.0)" "foo (>= 2.0)" "" =
      ["foo (>= 1.0)", "foo (>= 2.0)"] ∧
    buildDepDict [] ["foo (>= 1.0)", "foo (>= 2.0)"] =
      Except.ok [("foo", ">=2.0")] ∧
    buildDepDict [] ["foo (>= 2.0)", "foo (>= 1.0)"] =
      Except.ok [("foo", ">=1.0")] :=
  ⟨rfl, rfl, rfl⟩

/-- C5 (amended). Duplicate names never fail the run and always collapse
to a single entry of `dep_dict`: inserting a key keeps the key set free of
duplicates and leaves exactly one occurrence of the key, whichever
constraint was processed last (the set enumeration order is
implementation defined); identical tokens are already collapsed by the
set itself. -/
theorem claim5_amended_last_wins :
    (∀ (d : List (String × String)) (k v : String),
      (d.map Prod.fst).Nodup →
      ((dictInsert d k v).map Prod.fst).Nodup ∧
      ((dictInsert d k v).map Prod.fst).count k = 1) ∧
    tokensFromSources "foo (>= 1.0)" "foo (>= 1.0)" "" = ["foo (>= 1.0)"] ∧
    buildDepDict [] ["foo (>= 1.0)"] = Except.ok [("foo", ">=1.0")] := by
  refine ⟨?_, rfl, rfl⟩
  intro d k v hnodup
  rw [dictInsert_keys]
  cases hany : d.any (fun p => p.1 == k) with
  | true =>
    rw [if_pos rfl]
    exact ⟨hnodup, List.count_eq_one_of_mem hnodup (any_eq_true_mem d k hany)⟩
  | false =>
    rw [if_neg (by simp)]
    have hkn := any_eq_false_not_mem d k hany
    constructor
    · rw [List.nodup_append]
      exact ⟨hnodup, List.nodup_singleton k,
        fun a ha hak => hkn ((List.mem_singleton.mp hak) ▸ ha)⟩
    · rw [List.count_append]
      rw [List.count_eq_zero.mpr hkn]
      simp

/-- C5 witness: the key discipline instantiated on an overwriting insert. -/
theorem claim5_amended_last_wins_witness :
    ((dictInsert [("foo", ">=1.0")] "foo" ">=2.0").map Prod.fst).Nodup ∧
    ((dictInsert [("foo", ">=1.0")] "foo" ">=2.0").map Prod.fst).count "foo" = 1 :=
  claim5_amended_last_wins.1 [("foo", ">=1.0")] "foo" ">=2.0" (by decide)

/-- C6 counterexample. An index text ending in the blank-line separator
does NOT split into only the per-package blocks: the trailing empty piece
survives as an extra block, which the continuation normalizer turns into
the one-line block `[""]`. -/
theorem claim6_trailing_block_kept :
    package_list "Package: A3\n\n" = [["Package: A3", ""], [""]] := rfl

/-- C6 (amended). The trailing empty block produced by a final separator
is not discarded: it reaches the record parser, which parses it to a
record with no fields, and building the metadata map then fails with a
`KeyError` on the missing `Package` field. -/
theorem claim6_amended_keyerror :
    dict_from_cran_lines [""] = Except.ok ⟨[], [""]⟩ ∧
    cran_metadata "Package: A3\n\n" = Except.error "KeyError: Package" :=
  ⟨rfl, rfl⟩

/-- C7 counterexample. The requested packages are NOT processed in the
supplied order, and a package's recipe is NOT written before the next
package is processed: supplying `["a", "b"]` builds `b` first (the list is
consumed by `pop()` from its end) and writes nothing until every build has
finished. -/
theorem claim7_reverse_order_counterexample :
    processingOrder ["a", "b"] = ["b", "a"] ∧
    mainEvents ["a", "b"] =
      [MainEvent.build "b", MainEvent.build "a",
        MainEvent.write "b", MainEvent.write "a"] ∧
    mainEvents ["a", "b"] ≠
      [MainEvent.build "a", MainEvent.write "a",
        MainEvent.build "b", MainEvent.write "b"] := by
  refine ⟨rfl, rfl, by decide⟩

/-- C7 (amended). The requested packages are processed in REVERSE of the
supplied order (the list is consumed destructively by popping from its
end), every package's recipe fields are built before any recipe is
written, and the recipes are then written in that same reversed order
(first occurrences, in dict insertion order). -/
theorem claim7_amended_reverse_batched (ps : List String) :
    processingOrder ps = ps.reverse ∧
    mainEvents ps = (ps.reverse.map MainEvent.build) ++
      ((dedupFirst ps.reverse).map MainEvent.write) := by
  have h := processingOrder_eq_reverse ps
  exact ⟨h, by rw [mainEvents, h]⟩

/-- C8. The recipe's normalized version equals the raw version with every
`-` replaced by `_`, while the generated filename and source URL
interpolate the raw version unmodified; concretely, raw `1.2-3` yields
document version `1.2_3` and filename `foo_1.2-3.tar.bz2`. -/
theorem claim8_version_fields :
    (∀ url name v : String,
      (buildVersionFields url name v).cran_version = v ∧
      (buildVersionFields url name v).conda_version =
        String.mk (v.data.map fun c => if c = '-' then '_' else c) ∧
      (buildVersionFields url name v).filename =
        name ++ "_" ++ v ++ ".tar.bz2" ∧
      (buildVersionFields url name v).cranurl =
        url ++ (name ++ "_" ++ v ++ ".tar.bz2")) ∧
    (buildVersionFields "https://cran.r-project.org/src/contrib/" "foo"
        "1.2-3").conda_version = "1.2_3" ∧
    (buildVersionFields "https://cran.r-project.org/src/contrib/" "foo"
        "1.2-3").filename = "foo_1.2-3.tar.bz2" ∧
    (buildVersionFields "https://cran.r-project.org/src/contrib/" "foo"
        "1.2-3").cranurl =
      "https://cran.r-project.org/src/contrib/foo_1.2-3.tar.bz2" :=
  ⟨fun _ _ _ => ⟨rfl, rfl, rfl, rfl⟩, rfl, rfl, rfl⟩

end CranBuild
